import Mathlib

/-!
Verification of the module dependency graph builder and the selective
context extraction engine of the odev AI plugin.

The Lean definitions below are a shallow embedding of the Python sources:

* `src/common/graph.py` — `_read_manifest`, `_get_module_path`,
  `build_dependency_tree`, `print_dependency_tree`;
* `src/common/odoo_context.py` — `OdooContext._build_dependency_info`,
  `gather_context` and the per-category `_gather_*` passes.

Filesystem reads are modelled as explicit environment values; Python
exceptions are modelled with `Except` where the code lets them escape and
with plain values where the code catches them.  Machine details that the
claims do not touch (logging text, the exact regex engine) are abstracted:
each abstraction is documented at its definition.
-/

namespace OdevAI

/-! ### Directed graphs (the `networkx.DiGraph` subset used by graph.py)

Only the operations the plugin uses are modelled: `add_node`, `add_edge`
(both idempotent, keeping node insertion order as `list(graph.nodes())`
reports it), the node list, the edge set, and topological sorting. -/

/-- A directed graph over `String` node names.  `nodes` keeps insertion
order with no duplicates (maintained by `addNode`); `edges` is the list of
`(source, target)` pairs. -/
structure Digraph where
  nodes : List String
  edges : List (String × String)
deriving Repr, DecidableEq

/-- The empty `networkx.DiGraph()`. -/
def Digraph.empty : Digraph := ⟨[], []⟩

/-- `graph.add_node(n)`: appends `n` unless already present. -/
def Digraph.addNode (g : Digraph) (n : String) : Digraph :=
  if n ∈ g.nodes then g else { g with nodes := g.nodes ++ [n] }

/-- `graph.add_edge(u, v)`: inserts both endpoints as nodes when missing,
then records the edge `u → v` (idempotently, as a DiGraph has no parallel
edges). -/
def Digraph.addEdge (g : Digraph) (u v : String) : Digraph :=
  let g₁ := (g.addNode u).addNode v
  if (u, v) ∈ g₁.edges then g₁ else { g₁ with edges := g₁.edges ++ [(u, v)] }

/-- One edge step `u → v` of the graph edge list. -/
def EdgeStep (edges : List (String × String)) (u v : String) : Prop :=
  (u, v) ∈ edges

/-- A dependency cycle: some node reaches itself through a nonempty edge
path. -/
def HasCycle (g : Digraph) : Prop :=
  ∃ u, Relation.TransGen (EdgeStep g.edges) u u

/-- Every edge has both endpoints among the nodes (an invariant of graphs
produced through `addNode` / `addEdge`). -/
def Digraph.EdgesClosed (g : Digraph) : Prop :=
  ∀ e ∈ g.edges, e.1 ∈ g.nodes ∧ e.2 ∈ g.nodes

/-- The well-formedness invariant every graph built by `addNode` /
`addEdge` keeps: no duplicate nodes, and every edge endpoint is a node. -/
def Digraph.WF (g : Digraph) : Prop :=
  g.nodes.Nodup ∧ g.EdgesClosed

/-! ### The dependency environment

`build_dependency_tree` consults the filesystem through
`_get_module_path` and `_read_manifest`.  For the graph construction the
only information that decides control flow is, per module name, whether a
path and a manifest with a `"depends"` key were found, and which
dependency list the key holds.  `DependsEnv` records exactly that:
`lookup m = some deps` when the module resolves and its manifest declares
`depends`, and `none` in all the cases where graph.py adds no edges for
`m` (module unresolved, manifest unreadable or without `"depends"`). -/

def DependsEnv := List (String × List String)

/-- Manifest lookup: the first entry for the module name, if any. -/
def DependsEnv.lookup (env : DependsEnv) (m : String) : Option (List String) :=
  (env.find? (fun p => p.1 == m)).map (·.2)

/-- One fuelled run of the `while to_process:` loop of
`build_dependency_tree` (graph.py lines 83-102).  Arguments mirror the
Python locals: the work queue `to_process`, the `processed` set (as a
list, membership only) and the graph built so far.  The inner
`for dependency in dependencies:` loop both adds the edge
`dependency → module` and appends unprocessed dependencies to the queue,
which the `foldl` reproduces pair-wise.  `fuel` bounds loop iterations;
`buildDependencyTree` supplies more fuel than the loop can consume. -/
def buildLoop (env : DependsEnv) : Nat → List String → List String → Digraph → Digraph
  | 0, _, _, g => g
  | _ + 1, [], _, g => g
  | fuel + 1, m :: rest, processed, g =>
    if m ∈ processed then
      buildLoop env fuel rest processed g
    else
      let g₁ := g.addNode m
      match env.lookup m with
      | none => buildLoop env fuel rest (m :: processed) g₁
      | some deps =>
        let step := deps.foldl
          (fun (acc : Digraph × List String) d =>
            (acc.1.addEdge d m, if d ∈ processed then acc.2 else acc.2 ++ [d]))
          (g₁, rest)
        buildLoop env fuel step.2 (m :: processed) step.1

/-- `build_dependency_tree` (graph.py lines 67-104): breadth-first
traversal from the seed modules, adding the edge `dependency → module` for
every declared dependency.  The fuel exceeds the total number of queue
pushes (each seed is pushed once and every manifest dependency entry is
pushed at most once), so the loop always runs to queue exhaustion. -/
def buildDependencyTree (env : DependsEnv) (modules : List String) : Digraph :=
  buildLoop env (modules.length + (env.map (fun p => p.2.length)).sum + 1) modules [] Digraph.empty

/-! ### Topological sorting (the `networkx.topological_sort` contract)

networkx is an external library; its `topological_sort` is modelled by a
Kahn-style algorithm: repeatedly emit a remaining node with no incoming
edge from the remaining set, and fail (the model of raising
`networkx.NetworkXUnfeasible`) when no such node exists. -/

/-- `n` has no incoming edge from inside `rem`. -/
def noIncoming (edges : List (String × String)) (rem : List String) (n : String) : Bool :=
  edges.all fun e => !(e.2 == n && rem.contains e.1)

/-- Kahn elimination with explicit fuel; `kahnSort` supplies `rem.length`,
which is exactly adequate because each round removes one node. -/
def kahnAux (edges : List (String × String)) : Nat → List String → Option (List String)
  | _, [] => some []
  | 0, _ :: _ => none
  | fuel + 1, rem =>
    match rem.find? (noIncoming edges rem) with
    | none => none
    | some n => (kahnAux edges fuel (rem.erase n)).map (n :: ·)

/-- The model of `list(nx.topological_sort(graph))`: `some order` on a
directed acyclic graph, `none` for `NetworkXUnfeasible`. -/
def kahnSort (edges : List (String × String)) (rem : List String) : Option (List String) :=
  kahnAux edges rem.length rem

/-- The ordering part of `OdooContext._build_dependency_info`
(odoo_context.py lines 79-94): topological sort of the dependency graph
guarded by `if dependency_graph:` (graph truthiness = nonempty node set),
falling back to `list(dependency_graph.nodes())` when
`nx.NetworkXUnfeasible` is raised; the `Bool` component records whether
the `logger.error("Circular dependency detected…")` branch ran.  The last
component models the `module_paths` dict built from the sorted modules
(lines 88-93, insertion order).  Note the Python caller invokes
`graph.build_dependency_tree(…, max_level=dependency_level)` although
`build_dependency_tree` accepts no such parameter — see
`builder_has_no_depth_limit`. -/
def buildDependencyInfo (pathOf : String → Option String) (g : Digraph) :
    Bool × List String × List (String × String) :=
  let sorted :=
    if g.nodes.isEmpty then (false, ([] : List String))
    else
      match kahnSort g.edges g.nodes with
      | some l => (false, l)
      | none => (true, g.nodes)
  (sorted.1, sorted.2, sorted.2.filterMap fun m => (pathOf m).map fun p => (m, p))

/-! ### Addon resolution (`_get_module_path`, graph.py lines 49-64)

Filesystem paths are component lists; `path / segment` is `++ [segment]`.
The filesystem is a pair of Boolean predicates mirroring the two checks
the code performs. -/

/-- The filesystem view used by `_get_module_path`: `isDir` models
`Path.is_dir()` and `pathExists` models `Path.exists()`. -/
structure AddonsFS where
  isDir : List String → Bool
  pathExists : List String → Bool

/-- The per-root test of `_get_module_path`:
`module_path.is_dir() and (module_path / "__manifest__.py").exists()`. -/
def moduleDirOk (fs : AddonsFS) (root : List String) (moduleName : String) : Bool :=
  fs.isDir (root ++ [moduleName]) && fs.pathExists ((root ++ [moduleName]) ++ ["__manifest__.py"])

/-- `_get_module_path` (graph.py lines 49-64): iterate
`process.odoo_addons_paths` in order and return the first root whose
module subdirectory exists and holds a manifest file. -/
def getModulePath (fs : AddonsFS) (roots : List (List String)) (moduleName : String) :
    Option (List String) :=
  match roots with
  | [] => none
  | root :: rest =>
    if moduleDirOk fs root moduleName then some (root ++ [moduleName])
    else getModulePath fs rest moduleName

/-! ### Manifest reading (`_read_manifest`, graph.py lines 21-46)

The Python function checks `is_file()`, reads the text, parses it with
`ast.parse`, takes the first `ast.Dict` node in `ast.walk` order and
evaluates it with `ast.literal_eval`, catching only `ValueError` and
`SyntaxError` (`UnicodeDecodeError` is a `ValueError` subclass, so a
decoding failure is caught; an `OSError` from `read_text` is not). -/

/-- The uncaught Python exceptions the embedding tracks.  `osError` stands
for any `OSError` raised by a filesystem call outside a handler that
catches it. -/
inductive PyError where
  | osError
deriving Repr, DecidableEq

/-- Outcome of `ast.literal_eval` on one dictionary node of the manifest
AST: a literal dictionary evaluates to its (abstracted) mapping; a
dictionary holding any non-literal expression raises `ValueError`. -/
inductive AstDict where
  | literal (value : List (String × String))
  | nonLiteral
deriving Repr, DecidableEq

/-- Outcome of `manifest_path.read_text()` followed by `ast.parse`:
`osError` is an OS-level read failure, `decodeError` a
`UnicodeDecodeError`, `parsed none` a `SyntaxError` from `ast.parse`, and
`parsed (some ds)` a successful parse whose dictionary nodes, in
`ast.walk` order, are `ds`. -/
inductive ReadOutcome where
  | osError
  | decodeError
  | parsed (dicts : Option (List AstDict))
deriving Repr, DecidableEq

/-- A manifest path as `_read_manifest` probes it: the `is_file()` answer
and the read/parse outcome. -/
structure ManifestFile where
  isFile : Bool
  readResult : ReadOutcome
deriving Repr, DecidableEq

/-- `_read_manifest` (graph.py lines 21-46).  `Except.error` models an
exception escaping the function; `.ok none` models `return None`. -/
def readManifest (f : ManifestFile) : Except PyError (Option (List (String × String))) :=
  if !f.isFile then .ok none
  else
    match f.readResult with
    | .osError => .error .osError
    | .decodeError => .ok none
    | .parsed none => .ok none
    | .parsed (some ds) =>
      match ds.head? with
      | none => .ok none
      | some (.literal d) => .ok (some d)
      | some .nonLiteral => .ok none

/-! ### The XML passes (`_gather_views`, `_gather_reports`,
`_gather_website_templates`, odoo_context.py lines 234-251, 307-343)

Each pass walks `module_path.rglob("*.xml")`, reads and parses each file,
and appends the file (path + full raw content) on the first matching
element, then `break`s to the next file.  Each handler catches only
`ET.ParseError` and `FileNotFoundError`; any other read failure escapes.
Parsed XML is abstracted to exactly what the passes inspect: `record`
elements with their `model` attribute and `field` children, and
`template` elements with their optional `id` attribute. -/

/-- One `<record model=…>` element: the `model` attribute and the
`(name attribute, text)` of each `<field>` child, in document order. -/
structure XmlRecord where
  model : String
  fields : List (String × Option String)
deriving Repr, DecidableEq

/-- A parsed XML document as the passes consume it. -/
structure XmlDoc where
  records : List XmlRecord
  templates : List (Option String)
deriving Repr, DecidableEq

/-- Outcome of `xml_file.read_text()` + `ET.fromstring(content)`:
`missing` is `FileNotFoundError` (caught), `parseError` is
`ET.ParseError` (caught), `readError` any other read failure (uncaught),
and `ok` a successful read and parse with the raw text kept. -/
inductive XmlRead where
  | missing
  | parseError (raw : String)
  | readError
  | ok (raw : String) (doc : XmlDoc)
deriving Repr, DecidableEq

/-- One file yielded by `module_path.rglob("*.xml")`. -/
structure XmlFile where
  path : String
  read : XmlRead
deriving Repr, DecidableEq

/-- The shared per-file loop skeleton of the three XML passes: visit the
files in order, appending at most the one artifact `perFile` yields per
file (the Python `break` after the first matching element), propagating
any uncaught error. -/
def collectXmlFiles (perFile : XmlFile → Except PyError (Option (String × String)))
    (files : List XmlFile) : Except PyError (List (String × String)) :=
  files.foldlM (fun acc f => do let o ← perFile f; pure (acc ++ o.toList)) []

/-- Per-file body of `_gather_views` (lines 241-251): keep the file when
some `record` with `model="ir.ui.view"` has a `<field name="model">`
whose text is a requested view model. -/
def viewsFile (viewModels : List String) (f : XmlFile) :
    Except PyError (Option (String × String)) :=
  match f.read with
  | .readError => .error .osError
  | .missing => .ok none
  | .parseError _ => .ok none
  | .ok raw doc =>
    if (doc.records.filter (fun r => r.model == "ir.ui.view")).any
        (fun r =>
          match r.fields.find? (fun fld => fld.1 == "model") with
          | some (_, some t) => viewModels.contains t
          | _ => false)
    then .ok (some (f.path, raw)) else .ok none

/-- Per-file body of `_gather_reports` (lines 313-323): as `viewsFile`
but matching `record` elements with `model="ir.actions.report"` against
the requested report models. -/
def reportsFile (reportModels : List String) (f : XmlFile) :
    Except PyError (Option (String × String)) :=
  match f.read with
  | .readError => .error .osError
  | .missing => .ok none
  | .parseError _ => .ok none
  | .ok raw doc =>
    if (doc.records.filter (fun r => r.model == "ir.actions.report")).any
        (fun r =>
          match r.fields.find? (fun fld => fld.1 == "model") with
          | some (_, some t) => reportModels.contains t
          | _ => false)
    then .ok (some (f.path, raw)) else .ok none

/-- Per-file body of `_gather_website_templates` (lines 333-343): keep the
file when some `template` element has an `id` in the requested set. -/
def templatesFile (viewIds : List String) (f : XmlFile) :
    Except PyError (Option (String × String)) :=
  match f.read with
  | .readError => .error .osError
  | .missing => .ok none
  | .parseError _ => .ok none
  | .ok raw doc =>
    if doc.templates.any
        (fun i => match i with | some tid => viewIds.contains tid | none => false)
    then .ok (some (f.path, raw)) else .ok none

/-- `_gather_views` (lines 234-251).  `analysisViews` models
`analysis.get("views", [])`, each element the optional `"model"` value of
one criterion record; the early return fires on an empty criterion list
(not on an empty model set). -/
def gatherViews (analysisViews : List (Option String)) (files : List XmlFile) :
    Except PyError (List (String × String)) :=
  if analysisViews.isEmpty then .ok []
  else collectXmlFiles (viewsFile (analysisViews.filterMap id)) files

/-- `_gather_reports` (lines 307-323): here the early return fires on an
empty model set. -/
def gatherReports (analysisReports : List (Option String)) (files : List XmlFile) :
    Except PyError (List (String × String)) :=
  let reportModels := analysisReports.filterMap id
  if reportModels.isEmpty then .ok []
  else collectXmlFiles (reportsFile reportModels) files

/-- `_gather_website_templates` (lines 325-343): early return on an empty
template-id set. -/
def gatherWebsiteTemplates (analysisWebsiteViews : List (Option String)) (files : List XmlFile) :
    Except PyError (List (String × String)) :=
  let viewIds := analysisWebsiteViews.filterMap id
  if viewIds.isEmpty then .ok []
  else collectXmlFiles (templatesFile viewIds) files

/-! ### Controllers and security (`_gather_controllers`, `_gather_security`)

Neither pass has any try/except: every `read_text()` failure escapes. -/

/-- A controller file: `routes` abstracts the strings the two
`@http.route` regexes (single string and list forms, lines 266-269)
extract from the raw text. -/
structure ControllerSource where
  raw : String
  routes : List String
deriving Repr, DecidableEq

/-- One file from `controllers_dir.rglob("*.py")`; `read` models the
unprotected `py_file.read_text()`. -/
structure ControllerFile where
  path : String
  read : Except PyError ControllerSource
deriving Repr

/-- `_gather_controllers` (odoo_context.py lines 253-272).
`analysisControllers` models `analysis.get("controller", [])`, each
element the optional `"action_name"` of one criterion. -/
def gatherControllers (analysisControllers : List (Option String))
    (controllersDirExists : Bool) (files : List ControllerFile) :
    Except PyError (List (String × String)) :=
  if analysisControllers.isEmpty then .ok []
  else if !controllersDirExists then .ok []
  else
    let analysisRoutes := analysisControllers.filterMap id
    files.foldlM
      (fun acc f => do
        let src ← f.read
        pure (if src.routes.any (fun r => analysisRoutes.contains r)
          then acc ++ [(f.path, src.raw)] else acc))
      []

/-- Model of `str.endswith(suffix)` by character lists (the builtin
byte-based `String.endsWith` computes the same answer but does not reduce
inside the kernel). -/
def nameEndsWith (s suffix : String) : Bool :=
  suffix.data.reverse.isPrefixOf s.data.reverse

/-- A directory entry with name, regular-file flag, and an unprotected
`read_text()` outcome; used by the security and data passes. -/
structure FsEntry where
  name : String
  isFile : Bool
  read : Except PyError String
deriving Repr

/-- `_gather_security` (odoo_context.py lines 299-305): every regular file
of the `security` directory whose name ends in `.csv` or `.xml` is read
(unprotected) and appended verbatim. -/
def gatherSecurity (securityDirExists : Bool) (listing : List FsEntry) :
    Except PyError (List (String × String)) :=
  if !securityDirExists then .ok []
  else
    listing.foldlM
      (fun acc e =>
        if e.isFile && (nameEndsWith e.name ".csv" || nameEndsWith e.name ".xml") then do
          let c ← e.read
          pure (acc ++ [(e.name, c)])
        else pure acc)
      []

/-- `_gather_data` (odoo_context.py lines 345-351): `data_dir.glob("*.xml")`
yields only names ending in `.xml`; each regular file among them is read
(unprotected) and appended verbatim.  CSV files never match the glob. -/
def gatherData (dataDirExists : Bool) (listing : List FsEntry) :
    Except PyError (List (String × String)) :=
  if !dataDirExists then .ok []
  else
    (listing.filter (fun e => nameEndsWith e.name ".xml")).foldlM
      (fun acc e =>
        if e.isFile then do
          let c ← e.read
          pure (acc ++ [(e.name, c)])
        else pure acc)
      []

/-! ### The models pass (`_gather_models`, odoo_context.py lines 178-232)

The pass reads `models/__init__.py`, maps each name of a
`from . import a, b` line to `models/<name>.py`, and scans each existing
file for class blocks: a block starts at a line matching
`^(\s*)class\s+.*:` and extends until a non-blank line whose indentation
is at most the class line indentation.  A block is appended when the model
names its `_name` / `_inherit` assignments mention intersect the
requested set.  The whole body sits in a `try/except Exception`, so the
pass never raises; reads are therefore modelled as total values.

A file is a list of `PyLine`s, each carrying the per-line facts the
scanner extracts.  `names` abstracts the `_name` / `_inherit` regex
matches of the line (declared and inherited combined, as the code unions
them); an `_inherit` list split across several physical lines is beyond
this abstraction. -/

/-- One physical line of a `models/*.py` file: `indent` is the count of
leading spaces (`len(line) - len(line.lstrip(" "))`), `blank` whether
`line.strip()` is empty, `isClass` whether the line matches
`^(\s*)class\s+.*:`, `names` the model names the `_name` / `_inherit`
patterns extract from the line, and `text` its raw text. -/
structure PyLine where
  indent : Nat
  blank : Bool
  isClass : Bool
  names : List String
  text : String
deriving Repr, DecidableEq

/-- The inner `while j < len(content_lines):` loop (lines 213-218): take
the block lines following a class header of indentation `classIndent`,
stopping before the first non-blank line indented at most `classIndent`;
returns the block tail and the unconsumed rest. -/
def takeBlock (classIndent : Nat) : List PyLine → List PyLine × List PyLine
  | [] => ([], [])
  | l :: ls =>
    if !l.blank && l.indent ≤ classIndent then ([], l :: ls)
    else
      let r := takeBlock classIndent ls
      (l :: r.1, r.2)

/-- The outer `while i < len(content_lines):` loop (lines 201-230) with
explicit fuel: skip non-class lines; at a class line collect its block and
resume at the first line after it (`i = j`).  Each step consumes at least
one line, so `scanBlocks` never exhausts its `length`-sized fuel. -/
def scanBlocksAux : Nat → List PyLine → List (List PyLine)
  | 0, _ => []
  | _, [] => []
  | fuel + 1, l :: ls =>
    if l.isClass then
      let r := takeBlock l.indent ls
      (l :: r.1) :: scanBlocksAux fuel r.2
    else scanBlocksAux fuel ls

/-- All class blocks of a file, in order. -/
def scanBlocks (ls : List PyLine) : List (List PyLine) :=
  scanBlocksAux ls.length ls

/-- The names the `_name` / `_inherit` regex scans find in a block
(`declared + inherited` of lines 221-226). -/
def blockNames (b : List PyLine) : List String :=
  (b.map (·.names)).flatten

/-- The block text appended to the bundle:
`"\n".join(class_block_lines)` (line 220). -/
def blockText (b : List PyLine) : String :=
  String.intercalate "\n" (b.map (·.text))

/-- The models directory of a module as `_gather_models` probes it:
whether `models/` is a directory and `models/__init__.py` exists, the
imported names of the initializer (from the `from . import a, b` lines,
in order, line 192-194), and the existing `models/*.py` files keyed by
bare module-file name. -/
structure ModelsEnv where
  modelsDirExists : Bool
  initExists : Bool
  initImports : List String
  files : List (String × List PyLine)
deriving Repr, DecidableEq

/-- `_gather_models` (odoo_context.py lines 178-232).  `analysisModels`
models the set `{m["name"] for m in analysis.get("models", [])}`.
Returns the `(path, content)` entries appended to the bundle, with the
path abstracted to `<file>.py`. -/
def gatherModels (env : ModelsEnv) (analysisModels : List String) : List (String × String) :=
  if !env.modelsDirExists || !env.initExists || analysisModels.isEmpty then []
  else
    let loaded := env.initImports.filterMap
      (fun m => (env.files.find? (fun f => f.1 == m)).map (fun f => (m, f.2)))
    (loaded.map (fun f =>
      (scanBlocks f.2).filterMap (fun b =>
        if analysisModels.any (fun n => (blockNames b).contains n)
        then some (f.1 ++ ".py", blockText b) else none))).flatten

/-! ### The gathering loop (`gather_context`, odoo_context.py lines 96-165)

`gather_context` runs the per-category passes for each sorted module with
a resolved path, skipping the foundation modules; no pass call is wrapped
in a try/except, so an exception escaping a pass escapes `gather_context`
itself.  `_gather_manifest` (lines 167-176) reads the manifest with an
unprotected `read_text()`.  `_gather_assets` decides no claim and is not
modelled. -/

/-- The analysis specification fields the modelled passes consume:
requested model names, and the optional matching key of each criterion of
the other categories. -/
structure AnalysisSpec where
  models : List String
  views : List (Option String)
  controller : List (Option String)
  reports : List (Option String)
  websiteViews : List (Option String)

/-- `_gather_manifest` (lines 167-176): when the manifest path exists its
unprotected read is appended verbatim. -/
def gatherManifest (manifest : Option (Except PyError String)) :
    Except PyError (List (String × String)) :=
  match manifest with
  | none => .ok []
  | some r => do
    let c ← r
    pure [("__manifest__.py", c)]

/-- Everything one module hands to the modelled passes. -/
structure ModuleEnv where
  manifest : Option (Except PyError String)
  modelsEnv : ModelsEnv
  xmlFiles : List XmlFile
  controllersDirExists : Bool
  controllerFiles : List ControllerFile
  securityDirExists : Bool
  securityFiles : List FsEntry
  dataDirExists : Bool
  dataFiles : List FsEntry

/-- The per-module category lists of the context dictionary
(odoo_context.py lines 120-130), restricted to the modelled passes. -/
structure ModuleContext where
  manifests : List (String × String)
  models : List (String × String)
  views : List (String × String)
  controllers : List (String × String)
  security : List (String × String)
  reports : List (String × String)
  website : List (String × String)
  data : List (String × String)
deriving Repr, DecidableEq

/-- The per-module pass sequence of `gather_context` (lines 132-140), in
source order, for the modelled passes; any exception escaping a pass
escapes the sequence. -/
def gatherModuleContext (analysis : AnalysisSpec) (env : ModuleEnv) :
    Except PyError ModuleContext := do
  let manifests ← gatherManifest env.manifest
  let models := gatherModels env.modelsEnv analysis.models
  let views ← gatherViews analysis.views env.xmlFiles
  let controllers ← gatherControllers analysis.controller env.controllersDirExists
    env.controllerFiles
  let security ← gatherSecurity env.securityDirExists env.securityFiles
  let reports ← gatherReports analysis.reports env.xmlFiles
  let website ← gatherWebsiteTemplates analysis.websiteViews env.xmlFiles
  let data ← gatherData env.dataDirExists env.dataFiles
  pure ⟨manifests, models, views, controllers, security, reports, website, data⟩

/-- The module loop of `gather_context` (lines 112-140): the foundation
modules `base`, `web`, `mail`, `utm` are skipped, as are modules without
a resolved path; every other module runs the pass sequence.  The input
list stands for the sorted modules paired with their optional resolved
environment. -/
def gatherContext (analysis : AnalysisSpec) (modules : List (String × Option ModuleEnv)) :
    Except PyError (List (String × ModuleContext)) :=
  modules.foldlM
    (fun acc m =>
      if m.1 ∈ ["base", "web", "mail", "utm"] then pure acc
      else
        match m.2 with
        | none => pure acc
        | some env => do
          let mc ← gatherModuleContext analysis env
          pure (acc ++ [(m.1, mc)]))
    []

/-! ## Graph construction invariants -/

theorem mem_addNode (g : Digraph) (n : String) : n ∈ (g.addNode n).nodes := by
  unfold Digraph.addNode
  split
  · assumption
  · simp

theorem mem_addNode_mono {g : Digraph} {x : String} (n : String) (h : x ∈ g.nodes) :
    x ∈ (g.addNode n).nodes := by
  unfold Digraph.addNode
  split
  · exact h
  · exact List.mem_append_left _ h

theorem addNode_WF {g : Digraph} (h : g.WF) (n : String) : (g.addNode n).WF := by
  obtain ⟨hn, hc⟩ := h
  unfold Digraph.addNode
  split
  · exact ⟨hn, hc⟩
  · next hmem =>
    refine ⟨?_, ?_⟩
    · simp [List.nodup_append, hn, hmem]
    · intro e he
      obtain ⟨h1, h2⟩ := hc e he
      exact ⟨List.mem_append_left _ h1, List.mem_append_left _ h2⟩

theorem addEdge_WF {g : Digraph} (h : g.WF) (u v : String) : (g.addEdge u v).WF := by
  have h₁ : ((g.addNode u).addNode v).WF := addNode_WF (addNode_WF h u) v
  have hu : u ∈ ((g.addNode u).addNode v).nodes := mem_addNode_mono v (mem_addNode g u)
  have hv : v ∈ ((g.addNode u).addNode v).nodes := mem_addNode _ v
  by_cases hmem : (u, v) ∈ ((g.addNode u).addNode v).edges
  · simpa only [Digraph.addEdge, hmem, if_true] using h₁
  · simp only [Digraph.addEdge, hmem, if_false]
    refine ⟨h₁.1, ?_⟩
    intro e he
    rcases List.mem_append.mp he with h2 | h2
    · exact h₁.2 e h2
    · rcases List.mem_singleton.mp h2 with rfl
      exact ⟨hu, hv⟩

theorem foldl_addEdge_WF (m : String) (processed : List String) (deps : List String) :
    ∀ acc : Digraph × List String, acc.1.WF →
      (deps.foldl
        (fun (acc : Digraph × List String) d =>
          (acc.1.addEdge d m, if d ∈ processed then acc.2 else acc.2 ++ [d]))
        acc).1.WF := by
  induction deps with
  | nil => intro acc h; exact h
  | cons d ds ih =>
    intro acc h
    exact ih _ (addEdge_WF h d m)

theorem buildLoop_WF (env : DependsEnv) :
    ∀ (fuel : Nat) (queue processed : List String) (g : Digraph),
      g.WF → (buildLoop env fuel queue processed g).WF := by
  intro fuel
  induction fuel with
  | zero => intro queue processed g h; cases queue <;> exact h
  | succ fuel ih =>
    intro queue processed g h
    cases queue with
    | nil => exact h
    | cons m rest =>
      simp only [buildLoop]
      split
      · exact ih _ _ _ h
      · cases hl : env.lookup m with
        | none => simp only [hl]; exact ih _ _ _ (addNode_WF h m)
        | some deps =>
          simp only [hl]
          exact ih _ _ _ (foldl_addEdge_WF m processed deps _ (addNode_WF h m))

theorem empty_WF : Digraph.empty.WF := by
  refine ⟨List.nodup_nil, ?_⟩
  intro e he
  cases he

theorem buildDependencyTree_WF (env : DependsEnv) (modules : List String) :
    (buildDependencyTree env modules).WF :=
  buildLoop_WF env _ modules [] Digraph.empty empty_WF

/-! ## Soundness of the topological sort model -/

theorem kahnAux_sound (edges : List (String × String)) :
    ∀ (fuel : Nat) (rem l : List String), kahnAux edges fuel rem = some l →
      l.Perm rem ∧ ∀ u v : String, (u, v) ∈ edges → u ∈ rem → v ∈ rem →
        l.indexOf u < l.indexOf v := by
  intro fuel
  induction fuel with
  | zero =>
    intro rem l h
    cases rem with
    | nil =>
      simp only [kahnAux, Option.some.injEq] at h
      subst h
      exact ⟨List.Perm.refl _, by intro u v _ _ hv; cases hv⟩
    | cons a as => simp [kahnAux] at h
  | succ fuel ih =>
    intro rem l h
    cases rem with
    | nil =>
      simp only [kahnAux, Option.some.injEq] at h
      subst h
      exact ⟨List.Perm.refl _, by intro u v _ _ hv; cases hv⟩
    | cons a as =>
      simp only [kahnAux] at h
      cases hf : (a :: as).find? (noIncoming edges (a :: as)) with
      | none => rw [hf] at h; cases h
      | some n =>
        rw [hf] at h
        simp only [Option.map_eq_some'] at h
        obtain ⟨l', hl', rfl⟩ := h
        have hn_mem : n ∈ a :: as := List.mem_of_find?_eq_some hf
        have hno : noIncoming edges (a :: as) n = true := List.find?_some hf
        obtain ⟨hperm, horder⟩ := ih ((a :: as).erase n) l' hl'
        refine ⟨(hperm.cons n).trans (List.perm_cons_erase hn_mem).symm, ?_⟩
        intro u v huv hu hv
        have hvn : v ≠ n := by
          rintro rfl
          have hall := List.all_eq_true.mp hno (u, v) huv
          simp [hu] at hall
        by_cases hun : u = n
        · subst hun
          rw [List.indexOf_cons_self, List.indexOf_cons_ne _ (Ne.symm hvn)]
          exact Nat.succ_pos _
        · have hu' : u ∈ (a :: as).erase n := (List.mem_erase_of_ne hun).mpr hu
          have hv' : v ∈ (a :: as).erase n := (List.mem_erase_of_ne hvn).mpr hv
          have hord := horder u v huv hu' hv'
          rw [List.indexOf_cons_ne _ (Ne.symm hun), List.indexOf_cons_ne _ (Ne.symm hvn)]
          omega

/-- A nonempty node set in which every node has an incoming edge from the
set contains a cycle (the reason Kahn elimination can stall). -/
theorem cycle_of_no_ready (edges : List (String × String)) (rem : List String)
    (hne : rem ≠ []) (h : ∀ n ∈ rem, ∃ u ∈ rem, (u, n) ∈ edges) :
    ∃ u, Relation.TransGen (EdgeStep edges) u u := by
  obtain ⟨x₀, hx₀⟩ := List.exists_mem_of_ne_nil rem hne
  have hch : ∀ x : {x // x ∈ rem}, ∃ y : {y // y ∈ rem}, (y.1, x.1) ∈ edges := by
    rintro ⟨x, hx⟩
    obtain ⟨u, hu, he⟩ := h x hx
    exact ⟨⟨u, hu⟩, he⟩
  choose f hf using hch
  let F : Nat → {x // x ∈ rem} := fun i => f^[i] ⟨x₀, hx₀⟩
  have hstep : ∀ i, EdgeStep edges (F (i + 1)).1 (F i).1 := by
    intro i
    have h1 : F (i + 1) = f (F i) := Function.iterate_succ_apply' f i _
    rw [h1]
    exact hf (F i)
  have hchain : ∀ (d i : Nat), Relation.TransGen (EdgeStep edges) (F (i + (d + 1))).1 (F i).1 := by
    intro d
    induction d with
    | zero => intro i; exact Relation.TransGen.single (hstep i)
    | succ k ihk =>
      intro i
      have e : i + (k + 1 + 1) = (i + (k + 1)) + 1 := by omega
      rw [e]
      exact Relation.TransGen.head (hstep (i + (k + 1))) (ihk i)
  have hmaps : ∀ i ∈ Finset.range (rem.length + 1),
      rem.indexOf (F i).1 ∈ Finset.range rem.length := by
    intro i _
    exact Finset.mem_range.mpr (List.indexOf_lt_length.mpr (F i).2)
  obtain ⟨i, hi, j, hj, hij, hEq⟩ :=
    Finset.exists_ne_map_eq_of_card_lt_of_maps_to (by simp) hmaps
  have key : ∀ a b : Nat, a < b → F a = F b →
      ∃ u, Relation.TransGen (EdgeStep edges) u u := by
    intro a b hab heq
    have e : b = a + ((b - a - 1) + 1) := by omega
    have hc := hchain (b - a - 1) a
    rw [← e] at hc
    rw [← heq] at hc
    exact ⟨(F a).1, hc⟩
  have hFeq : F i = F j := by
    apply Subtype.ext
    have gi := List.indexOf_get (List.indexOf_lt_length.mpr (F i).2)
    have gj := List.indexOf_get (List.indexOf_lt_length.mpr (F j).2)
    rw [← gi, ← gj]
    exact congrArg rem.get (Fin.ext hEq)
  rcases hij.lt_or_lt with hlt | hlt
  · exact key i j hlt hFeq
  · exact key j i hlt hFeq.symm

theorem kahnAux_none_cycle (edges : List (String × String)) :
    ∀ (fuel : Nat) (rem : List String), rem.length ≤ fuel →
      kahnAux edges fuel rem = none → ∃ u, Relation.TransGen (EdgeStep edges) u u := by
  intro fuel
  induction fuel with
  | zero =>
    intro rem hlen h
    cases rem with
    | nil => simp [kahnAux] at h
    | cons a as => simp at hlen
  | succ fuel ih =>
    intro rem hlen h
    cases rem with
    | nil => simp [kahnAux] at h
    | cons a as =>
      simp only [kahnAux] at h
      cases hf : (a :: as).find? (noIncoming edges (a :: as)) with
      | none =>
        apply cycle_of_no_ready edges (a :: as) (by simp)
        intro n hn
        have hfalse := List.find?_eq_none.mp hf n hn
        simp only [noIncoming, List.all_eq_true, not_forall] at hfalse
        obtain ⟨e, hmem, hbad⟩ := hfalse
        have : e.2 = n ∧ e.1 ∈ a :: as := by
          by_contra hcon
          apply hbad
          simp only [Bool.not_eq_true', Bool.and_eq_false_iff] at hcon ⊢
          rcases Decidable.em (e.2 = n) with h2 | h2
          · right
            have h1 : e.1 ∉ a :: as := fun hmem1 => hcon ⟨h2, hmem1⟩
            simp [h1]
          · left
            simp [h2]
        exact ⟨e.1, this.2, by rw [← this.1]; exact hmem⟩
      | some n =>
        rw [hf] at h
        simp only [Option.map_eq_none'] at h
        have hnm : n ∈ a :: as := List.mem_of_find?_eq_some hf
        have hlener := List.length_erase_of_mem hnm
        apply ih ((a :: as).erase n) _ h
        rw [hlener]
        simp only [List.length_cons] at hlen ⊢
        omega

theorem kahnSort_sound {edges : List (String × String)} {rem l : List String}
    (h : kahnSort edges rem = some l) :
    l.Perm rem ∧ ∀ u v : String, (u, v) ∈ edges → u ∈ rem → v ∈ rem →
      l.indexOf u < l.indexOf v :=
  kahnAux_sound edges rem.length rem l h

theorem kahnSort_none_cycle {edges : List (String × String)} {rem : List String}
    (h : kahnSort edges rem = none) : ∃ u, Relation.TransGen (EdgeStep edges) u u :=
  kahnAux_none_cycle edges rem.length rem le_rfl h

/-! ## C1 — topological order places dependencies first -/

/-- C1: for every acyclic dependency graph produced by
`build_dependency_tree`, the module ordering computed by
`_build_dependency_info` (topological sort of the graph whose edges point
from a dependency to its dependent) lists every dependency strictly before
every module depending on it. -/
theorem dependency_order_correct (env : DependsEnv) (seeds : List String)
    (pathOf : String → Option String) (d m : String)
    (hacyc : ¬ HasCycle (buildDependencyTree env seeds))
    (hedge : (d, m) ∈ (buildDependencyTree env seeds).edges) :
    d ∈ (buildDependencyInfo pathOf (buildDependencyTree env seeds)).2.1 ∧
    m ∈ (buildDependencyInfo pathOf (buildDependencyTree env seeds)).2.1 ∧
    (buildDependencyInfo pathOf (buildDependencyTree env seeds)).2.1.indexOf d <
      (buildDependencyInfo pathOf (buildDependencyTree env seeds)).2.1.indexOf m := by
  have hWF := buildDependencyTree_WF env seeds
  have hclosed := hWF.2 (d, m) hedge
  have hdn : d ∈ (buildDependencyTree env seeds).nodes := hclosed.1
  have hmn : m ∈ (buildDependencyTree env seeds).nodes := hclosed.2
  have hne : (buildDependencyTree env seeds).nodes.isEmpty = false := by
    cases hn : (buildDependencyTree env seeds).nodes with
    | nil => rw [hn] at hmn; cases hmn
    | cons x xs => rfl
  cases hk : kahnSort (buildDependencyTree env seeds).edges (buildDependencyTree env seeds).nodes with
  | none => exact absurd (kahnSort_none_cycle hk) hacyc
  | some l =>
    have hsound := kahnSort_sound hk
    have horder := hsound.2 d m hedge hdn hmn
    have hdl : d ∈ l := hsound.1.mem_iff.mpr hdn
    have hml : m ∈ l := hsound.1.mem_iff.mpr hmn
    simp only [buildDependencyInfo, hne, Bool.false_eq_true, if_false, hk]
    exact ⟨hdl, hml, horder⟩

/-- Witness for `dependency_order_correct`: a concrete acyclic build where
sale depends on base; base precedes sale in the computed order. -/
theorem dependency_order_correct_witness :
    "base" ∈ (buildDependencyInfo (fun _ => none)
        (buildDependencyTree [("sale", ["base"])] ["sale"])).2.1 ∧
    "sale" ∈ (buildDependencyInfo (fun _ => none)
        (buildDependencyTree [("sale", ["base"])] ["sale"])).2.1 ∧
    (buildDependencyInfo (fun _ => none)
        (buildDependencyTree [("sale", ["base"])] ["sale"])).2.1.indexOf "base" <
      (buildDependencyInfo (fun _ => none)
        (buildDependencyTree [("sale", ["base"])] ["sale"])).2.1.indexOf "sale" := by
  have hedges : (buildDependencyTree [("sale", ["base"])] ["sale"]).edges =
      [("base", "sale")] := by decide
  apply dependency_order_correct
  · rintro ⟨u, hu⟩
    have hkey : ∀ a b : String,
        Relation.TransGen (EdgeStep (buildDependencyTree [("sale", ["base"])] ["sale"]).edges) a b →
        a = "base" ∧ b = "sale" := by
      intro a b hab
      induction hab with
      | single h1 =>
        have h2 := h1
        simp only [EdgeStep, hedges, List.mem_singleton, Prod.mk.injEq] at h2
        exact h2
      | tail hprev h1 ihp =>
        exfalso
        have h2 := h1
        simp only [EdgeStep, hedges, List.mem_singleton, Prod.mk.injEq] at h2
        exact absurd (ihp.2.symm.trans h2.1) (by decide)
    obtain ⟨h1, h2⟩ := hkey u u hu
    rw [h1] at h2
    exact absurd h2 (by decide)
  · rw [hedges]
    exact List.mem_singleton.mpr rfl

/-! ## C2 — cycle fallback returns exactly the node set -/

/-- C2: when the built dependency graph has a cycle, the ordering of
`_build_dependency_info` signals the cycle (the logged-error branch runs)
and falls back to `list(graph.nodes())` — exactly the node set of the
graph, without omission or duplication. -/
theorem cycle_fallback_order (env : DependsEnv) (seeds : List String)
    (pathOf : String → Option String)
    (hcyc : HasCycle (buildDependencyTree env seeds)) :
    (buildDependencyInfo pathOf (buildDependencyTree env seeds)).1 = true ∧
    (buildDependencyInfo pathOf (buildDependencyTree env seeds)).2.1 =
      (buildDependencyTree env seeds).nodes ∧
    (buildDependencyTree env seeds).nodes.Nodup := by
  have hWF := buildDependencyTree_WF env seeds
  obtain ⟨u, hu⟩ := hcyc
  have hmem : u ∈ (buildDependencyTree env seeds).nodes := by
    cases hu with
    | single h => exact (hWF.2 _ h).1
    | tail _ h => exact (hWF.2 _ h).2
  have hne : (buildDependencyTree env seeds).nodes.isEmpty = false := by
    cases hn : (buildDependencyTree env seeds).nodes with
    | nil => rw [hn] at hmem; cases hmem
    | cons x xs => rfl
  cases hk : kahnSort (buildDependencyTree env seeds).edges (buildDependencyTree env seeds).nodes with
  | some l =>
    exfalso
    have hsound := kahnSort_sound hk
    have mono : ∀ a b : String,
        Relation.TransGen (EdgeStep (buildDependencyTree env seeds).edges) a b →
        a ∈ (buildDependencyTree env seeds).nodes ∧
        b ∈ (buildDependencyTree env seeds).nodes ∧
        l.indexOf a < l.indexOf b := by
      intro a b hab
      induction hab with
      | single h1 =>
        have hc := hWF.2 _ h1
        exact ⟨hc.1, hc.2, hsound.2 _ _ h1 hc.1 hc.2⟩
      | tail hprev h1 ihp =>
        have hc := hWF.2 _ h1
        exact ⟨ihp.1, hc.2, Nat.lt_trans ihp.2.2 (hsound.2 _ _ h1 hc.1 hc.2)⟩
    exact absurd (mono u u hu).2.2 (lt_irrefl _)
  | none =>
    simp only [buildDependencyInfo, hne, Bool.false_eq_true, if_false, hk]
    exact ⟨trivial, trivial, hWF.1⟩

/-- Witness for `cycle_fallback_order`: mutually dependent modules a and b. -/
theorem cycle_fallback_order_witness :
    (buildDependencyInfo (fun _ => none)
        (buildDependencyTree [("a", ["b"]), ("b", ["a"])] ["a"])).1 = true ∧
    (buildDependencyInfo (fun _ => none)
        (buildDependencyTree [("a", ["b"]), ("b", ["a"])] ["a"])).2.1 =
      (buildDependencyTree [("a", ["b"]), ("b", ["a"])] ["a"]).nodes ∧
    (buildDependencyTree [("a", ["b"]), ("b", ["a"])] ["a"]).nodes.Nodup := by
  apply cycle_fallback_order
  refine ⟨"a", Relation.TransGen.head (b := "b") ?h1 (Relation.TransGen.single ?h2)⟩
  · show ("a", "b") ∈ (buildDependencyTree [("a", ["b"]), ("b", ["a"])] ["a"]).edges
    decide
  · show ("b", "a") ∈ (buildDependencyTree [("a", ["b"]), ("b", ["a"])] ["a"]).edges
    decide

/-! ## C3 — no depth limit exists in the builder -/

/-- C3: `build_dependency_tree` (graph.py) accepts no maximum-depth
parameter — its caller `_build_dependency_info` passes `max_level=…`,
which raises `TypeError` at runtime.  Evaluating the builder as defined on
the claimed scenario (seeds `["sale"]`, sale depends on base and mail)
extended with a second-level dependency mail → web shows the traversal
does not stop at depth 1: `web` enters the node set and the edge
`web → mail` is added, while the claim requires exactly the nodes
{sale, base, mail}. -/
theorem builder_has_no_depth_limit :
    "web" ∈ (buildDependencyTree
        [("sale", ["base", "mail"]), ("mail", ["web"])] ["sale"]).nodes ∧
    ("web", "mail") ∈ (buildDependencyTree
        [("sale", ["base", "mail"]), ("mail", ["web"])] ["sale"]).edges := by
  decide

/-! ## C8 — module resolution returns the first matching root -/

/-- C8: `_get_module_path` returns the path under the first root, in
search order, whose module subdirectory exists and contains a manifest
(stated as the `find?` characterisation), and in particular when no root
before A matches and A matches, the resolved path is the one under A —
independent of whatever follows, so a module also present under a later
root B still resolves under A.  Determinism is immediate: the result is a
function of the roots and the filesystem state alone. -/
theorem module_resolution_first_match (fs : AddonsFS) (m : String) :
    (∀ roots : List (List String),
        getModulePath fs roots m =
          (roots.find? (fun r => moduleDirOk fs r m)).map (fun r => r ++ [m])) ∧
    (∀ (l1 l2 l3 : List (List String)) (A B : List String),
        (∀ r ∈ l1, moduleDirOk fs r m = false) → moduleDirOk fs A m = true →
        getModulePath fs (l1 ++ A :: (l2 ++ B :: l3)) m = some (A ++ [m])) := by
  have hmain : ∀ roots : List (List String),
      getModulePath fs roots m =
        (roots.find? (fun r => moduleDirOk fs r m)).map (fun r => r ++ [m]) := by
    intro roots
    induction roots with
    | nil => rfl
    | cons r rs ih =>
      by_cases h : moduleDirOk fs r m
      · simp [getModulePath, h, List.find?_cons_of_pos]
      · rw [getModulePath, if_neg h, List.find?_cons_of_neg _ (by simpa using h), ih]
  refine ⟨hmain, ?_⟩
  intro l1 l2 l3 A B h1 hA
  rw [hmain]
  have hfind : (l1 ++ A :: (l2 ++ B :: l3)).find? (fun r => moduleDirOk fs r m) = some A := by
    induction l1 with
    | nil =>
      rw [List.nil_append]
      exact List.find?_cons_of_pos _ hA
    | cons x xs ih =>
      have hx : moduleDirOk fs x m = false := h1 x (by simp)
      rw [List.cons_append, List.find?_cons_of_neg _ (by simp [hx])]
      exact ih (fun r hr => h1 r (by simp [hr]))
  rw [hfind]
  rfl

/-- Witness for `module_resolution_first_match`: the module `sale` exists
under roots a and b; with search order [z, a, b] the resolved path is the
one under a. -/
theorem module_resolution_first_match_witness :
    getModulePath
      { isDir := fun p => p == ["a", "sale"] || p == ["b", "sale"],
        pathExists := fun p =>
          p == ["a", "sale", "__manifest__.py"] || p == ["b", "sale", "__manifest__.py"] }
      [["z"], ["a"], ["b"]] "sale" = some (["a"] ++ ["sale"]) := by
  exact (module_resolution_first_match
      { isDir := fun p => p == ["a", "sale"] || p == ["b", "sale"],
        pathExists := fun p =>
          p == ["a", "sale", "__manifest__.py"] || p == ["b", "sale", "__manifest__.py"] }
      "sale").2 [["z"]] [] [] ["a"] ["b"] (by decide) (by decide)

/-! ## C7 — manifest reader error behaviour -/

/-- C7 counterexample: for an existing manifest whose read raises an
OS-level error (for example a permission failure), `_read_manifest` does
not return None — the exception escapes, because the handler catches only
`ValueError` and `SyntaxError`. -/
theorem manifest_unreadable_raises :
    readManifest { isFile := true, readResult := ReadOutcome.osError } =
      Except.error PyError.osError ∧
    ∀ r, readManifest { isFile := true, readResult := ReadOutcome.osError } ≠ Except.ok r := by
  refine ⟨rfl, ?_⟩
  intro r h
  simp [readManifest] at h

/-- C7 amended: `_read_manifest` returns None rather than raising when the
file is missing, and returns None (never a mapping, never an exception)
in every failed-parse case — decode failure, syntax error and non-literal
dictionary contents through the logging except branch, and the
no-dictionary-node case silently through the final `return None`; only an
OS-level read error on an existing file escapes. -/
theorem manifest_reader_graceful (f : ManifestFile) :
    (f.isFile = false → readManifest f = Except.ok none) ∧
    (f.readResult ≠ ReadOutcome.osError → ∃ r, readManifest f = Except.ok r) ∧
    (f.readResult = ReadOutcome.decodeError → readManifest f = Except.ok none) ∧
    (f.readResult = ReadOutcome.parsed none → readManifest f = Except.ok none) ∧
    (f.readResult = ReadOutcome.parsed (some []) → readManifest f = Except.ok none) ∧
    (∀ ds, f.readResult = ReadOutcome.parsed (some (AstDict.nonLiteral :: ds)) →
      readManifest f = Except.ok none) := by
  obtain ⟨fl, rr⟩ := f
  refine ⟨?_, ?_, ?_, ?_, ?_, ?_⟩
  · rintro rfl
    rfl
  · intro h
    cases fl with
    | false => exact ⟨none, rfl⟩
    | true =>
      cases rr with
      | osError => exact absurd rfl h
      | decodeError => exact ⟨none, rfl⟩
      | parsed d =>
        cases d with
        | none => exact ⟨none, rfl⟩
        | some ds =>
          cases ds with
          | nil => exact ⟨none, rfl⟩
          | cons hd tl =>
            cases hd with
            | literal v => exact ⟨some v, rfl⟩
            | nonLiteral => exact ⟨none, rfl⟩
  · rintro rfl
    cases fl with
    | false => rfl
    | true => rfl
  · rintro rfl
    cases fl with
    | false => rfl
    | true => rfl
  · rintro rfl
    cases fl with
    | false => rfl
    | true => rfl
  · rintro ds rfl
    cases fl with
    | false => rfl
    | true => rfl

/-- Witness for `manifest_reader_graceful`: a missing file, a decode
failure, a syntax error, a manifest without any dictionary node and a
non-literal manifest dictionary all yield None without an exception. -/
theorem manifest_reader_graceful_witness :
    readManifest { isFile := false, readResult := ReadOutcome.parsed none } = Except.ok none ∧
    (∃ r, readManifest { isFile := true, readResult := ReadOutcome.decodeError } = Except.ok r) ∧
    readManifest { isFile := true, readResult := ReadOutcome.decodeError } = Except.ok none ∧
    readManifest { isFile := true, readResult := ReadOutcome.parsed none } = Except.ok none ∧
    readManifest { isFile := true, readResult := ReadOutcome.parsed (some []) } =
      Except.ok none ∧
    readManifest { isFile := true
                   readResult := ReadOutcome.parsed (some [AstDict.nonLiteral]) } =
      Except.ok none :=
  ⟨(manifest_reader_graceful _).1 rfl,
   (manifest_reader_graceful _).2.1 (by decide),
   (manifest_reader_graceful _).2.2.1 rfl,
   (manifest_reader_graceful _).2.2.2.1 rfl,
   (manifest_reader_graceful _).2.2.2.2.1 rfl,
   (manifest_reader_graceful _).2.2.2.2.2 [] rfl⟩

/-! ## C9 — data pass contents -/

/-- Characterisation of the guarded read-and-append fold shared by the
data and security passes: when the fold succeeds, the accumulator is kept,
every entry passing the guard with a successful read contributes its
`(name, content)` pair, and every output pair is either from the
accumulator or from such an entry. -/
theorem fsFold_ok_spec (cond : FsEntry → Bool) :
    ∀ (l : List FsEntry) (acc out : List (String × String)),
      (l.foldlM (fun acc e =>
        if cond e then do
          let c ← e.read
          pure (acc ++ [(e.name, c)])
        else pure acc) acc) = Except.ok out →
      (∀ p ∈ acc, p ∈ out) ∧
      (∀ e ∈ l, cond e = true → ∀ c, e.read = Except.ok c → (e.name, c) ∈ out) ∧
      (∀ p ∈ out, p ∈ acc ∨
        ∃ e ∈ l, cond e = true ∧ p.1 = e.name ∧ e.read = Except.ok p.2) := by
  intro l
  induction l with
  | nil =>
    intro acc out h
    have hout : acc = out :=
      Except.ok.inj (show Except.ok acc = Except.ok out from h)
    subst hout
    refine ⟨fun p hp => hp, ?_, fun p hp => Or.inl hp⟩
    intro e he
    cases he
  | cons e es ih =>
    intro acc out h
    rw [List.foldlM_cons] at h
    by_cases hc : cond e = true
    · rw [if_pos hc] at h
      cases hr : e.read with
      | error err =>
        rw [hr] at h
        cases h
      | ok c =>
        rw [hr] at h
        obtain ⟨hacc, hfwd, hbwd⟩ := ih (acc ++ [(e.name, c)]) out h
        refine ⟨?_, ?_, ?_⟩
        · intro p hp
          exact hacc p (List.mem_append_left _ hp)
        · intro e' he' hc' c' hr'
          rcases List.mem_cons.mp he' with rfl | he''
          · rw [hr] at hr'
            cases hr'
            exact hacc _ (List.mem_append_right _ (List.mem_singleton.mpr rfl))
          · exact hfwd e' he'' hc' c' hr'
        · intro p hp
          rcases hbwd p hp with hin | ⟨e', he', h1, h2, h3⟩
          · rcases List.mem_append.mp hin with hin | hin
            · exact Or.inl hin
            · rcases List.mem_singleton.mp hin with rfl
              exact Or.inr ⟨e, List.mem_cons_self _ _, hc, rfl, hr⟩
          · exact Or.inr ⟨e', List.mem_cons_of_mem _ he', h1, h2, h3⟩
    · rw [if_neg hc] at h
      obtain ⟨hacc, hfwd, hbwd⟩ := ih acc out h
      refine ⟨hacc, ?_, ?_⟩
      · intro e' he' hc' c' hr'
        rcases List.mem_cons.mp he' with rfl | he''
        · exact absurd hc' hc
        · exact hfwd e' he'' hc' c' hr'
      · intro p hp
        rcases hbwd p hp with hin | ⟨e', he', h1, h2, h3⟩
        · exact Or.inl hin
        · exact Or.inr ⟨e', List.mem_cons_of_mem _ he', h1, h2, h3⟩

/-- C9 counterexample: `_gather_data` globs `*.xml` only, so a CSV file
directly inside the data directory is not included — the claim promises
tabular (CSV) files are included verbatim. -/
theorem data_pass_skips_csv :
    gatherData true
      [{ name := "ir.model.access.csv", isFile := true, read := Except.ok "access rows" }] =
      Except.ok [] := by
  rfl

/-- C9 amended: every markup (XML) file directly inside the data
directory whose read succeeds is included verbatim, and everything the
data pass includes is such a file — tabular (CSV) files are never
gathered by this pass. -/
theorem data_pass_xml_verbatim (listing : List FsEntry) (out : List (String × String))
    (h : gatherData true listing = Except.ok out) :
    (∀ e ∈ listing, e.isFile = true → nameEndsWith e.name ".xml" = true →
      ∀ c, e.read = Except.ok c → (e.name, c) ∈ out) ∧
    (∀ p ∈ out, ∃ e ∈ listing, e.isFile = true ∧ nameEndsWith e.name ".xml" = true ∧
      p.1 = e.name ∧ e.read = Except.ok p.2) := by
  have h' : ((listing.filter (fun e => nameEndsWith e.name ".xml")).foldlM
      (fun acc e =>
        if e.isFile then do
          let c ← e.read
          pure (acc ++ [(e.name, c)])
        else pure acc) []) = Except.ok out := h
  obtain ⟨_, hfwd, hbwd⟩ :=
    fsFold_ok_spec (fun e => e.isFile)
      (listing.filter (fun e => nameEndsWith e.name ".xml")) [] out h'
  refine ⟨?_, ?_⟩
  · intro e he hfile hxml c hr
    exact hfwd e (List.mem_filter.mpr ⟨he, hxml⟩) hfile c hr
  · intro p hp
    rcases hbwd p hp with hin | ⟨e, he, h1, h2, h3⟩
    · cases hin
    · have hmem := List.mem_filter.mp he
      exact ⟨e, hmem.1, h1, hmem.2, h2, h3⟩

/-- Witness for `data_pass_xml_verbatim`: one XML data file, gathered
verbatim. -/
theorem data_pass_xml_verbatim_witness :
    gatherData true [{ name := "view.xml", isFile := true, read := Except.ok "<odoo/>" }] =
      Except.ok [("view.xml", "<odoo/>")] ∧
    ("view.xml", "<odoo/>") ∈ [("view.xml", "<odoo/>")] := by
  refine ⟨rfl, ?_⟩
  exact (data_pass_xml_verbatim
      [{ name := "view.xml", isFile := true, read := Except.ok "<odoo/>" }]
      [("view.xml", "<odoo/>")] rfl).1
    { name := "view.xml", isFile := true, read := Except.ok "<odoo/>" }
    (List.mem_singleton.mpr rfl) rfl rfl "<odoo/>" rfl

/-! ## C10 — at most one artifact per XML file -/

/-- The per-file functions of the three XML passes only ever emit the
path of the file they were given. -/
theorem viewsFile_path (vm : List String) (f : XmlFile) (x : String × String)
    (h : viewsFile vm f = Except.ok (some x)) : x.1 = f.path := by
  cases hr : f.read with
  | missing => simp only [viewsFile, hr] at h; cases h
  | parseError raw => simp only [viewsFile, hr] at h; cases h
  | readError => simp only [viewsFile, hr] at h; cases h
  | ok raw doc =>
    simp only [viewsFile, hr] at h
    split at h
    · cases h; rfl
    · cases h

theorem reportsFile_path (rm : List String) (f : XmlFile) (x : String × String)
    (h : reportsFile rm f = Except.ok (some x)) : x.1 = f.path := by
  cases hr : f.read with
  | missing => simp only [reportsFile, hr] at h; cases h
  | parseError raw => simp only [reportsFile, hr] at h; cases h
  | readError => simp only [reportsFile, hr] at h; cases h
  | ok raw doc =>
    simp only [reportsFile, hr] at h
    split at h
    · cases h; rfl
    · cases h

theorem templatesFile_path (ids : List String) (f : XmlFile) (x : String × String)
    (h : templatesFile ids f = Except.ok (some x)) : x.1 = f.path := by
  cases hr : f.read with
  | missing => simp only [templatesFile, hr] at h; cases h
  | parseError raw => simp only [templatesFile, hr] at h; cases h
  | readError => simp only [templatesFile, hr] at h; cases h
  | ok raw doc =>
    simp only [templatesFile, hr] at h
    split at h
    · cases h; rfl
    · cases h

/-- Count bound for the shared XML collection fold: each visited file
contributes at most one artifact, so artifacts at a path are bounded by
the files at that path. -/
theorem collectXmlFiles_countP (perFile : XmlFile → Except PyError (Option (String × String)))
    (hstep : ∀ f x, perFile f = Except.ok (some x) → x.1 = f.path) (p : String) :
    ∀ (files : List XmlFile) (acc out : List (String × String)),
      files.foldlM (fun acc f => do let o ← perFile f; pure (acc ++ o.toList)) acc =
        Except.ok out →
      out.countP (fun e => e.1 == p) ≤
        acc.countP (fun e => e.1 == p) + files.countP (fun f => f.path == p) := by
  intro files
  induction files with
  | nil =>
    intro acc out h
    have hout : acc = out :=
      Except.ok.inj (show Except.ok acc = Except.ok out from h)
    subst hout
    simp
  | cons f fs ih =>
    intro acc out h
    rw [List.foldlM_cons] at h
    cases ho : perFile f with
    | error err => rw [ho] at h; cases h
    | ok o =>
      rw [ho] at h
      have hrest := ih (acc ++ o.toList) out h
      have hcount : (acc ++ o.toList).countP (fun e => e.1 == p) ≤
          acc.countP (fun e => e.1 == p) + (if f.path == p then 1 else 0) := by
        rw [List.countP_append]
        cases o with
        | none => simp
        | some x =>
          have hx := hstep f x ho
          simp only [Option.toList, List.countP_cons, List.countP_nil, hx]
          omega
      rw [List.countP_cons]
      omega

/-- C10: in each of the views, reports and website-template passes, an XML
file contributes at most one artifact, even when it contains several
matching records or templates (the Python loop breaks after the first
match). -/
theorem xml_file_single_artifact (avs ars aws : List (Option String))
    (files : List XmlFile) (p : String)
    (outV outR outW : List (String × String))
    (hV : gatherViews avs files = Except.ok outV)
    (hR : gatherReports ars files = Except.ok outR)
    (hW : gatherWebsiteTemplates aws files = Except.ok outW)
    (hp : files.countP (fun f => f.path == p) ≤ 1) :
    outV.countP (fun e => e.1 == p) ≤ 1 ∧
    outR.countP (fun e => e.1 == p) ≤ 1 ∧
    outW.countP (fun e => e.1 == p) ≤ 1 := by
  refine ⟨?_, ?_, ?_⟩
  · rw [gatherViews] at hV
    split at hV
    · cases hV; simp
    · have := collectXmlFiles_countP _ (viewsFile_path _) p files [] outV hV
      simpa using Nat.le_trans (by simpa using this) hp
  · rw [gatherReports] at hR
    split at hR
    · cases hR; simp
    · have := collectXmlFiles_countP _ (reportsFile_path _) p files [] outR hR
      simpa using Nat.le_trans (by simpa using this) hp
  · rw [gatherWebsiteTemplates] at hW
    split at hW
    · cases hW; simp
    · have := collectXmlFiles_countP _ (templatesFile_path _) p files [] outW hW
      simpa using Nat.le_trans (by simpa using this) hp

/-- Witness for `xml_file_single_artifact`: one file containing two
matching view records, two matching report records and two matching
templates still contributes one artifact per pass. -/
theorem xml_file_single_artifact_witness :
    gatherViews [some "res.partner"]
      [{ path := "v.xml",
         read := XmlRead.ok "raw"
          { records := [{ model := "ir.ui.view", fields := [("model", some "res.partner")] },
                        { model := "ir.ui.view", fields := [("model", some "res.partner")] },
                        { model := "ir.actions.report", fields := [("model", some "res.partner")] },
                        { model := "ir.actions.report", fields := [("model", some "res.partner")] }]
            templates := [some "tpl", some "tpl"] } }] =
      Except.ok [("v.xml", "raw")] ∧
    ([("v.xml", "raw")] : List (String × String)).countP (fun e => e.1 == "v.xml") ≤ 1 ∧
    ([("v.xml", "raw")] : List (String × String)).countP (fun e => e.1 == "v.xml") ≤ 1 ∧
    ([("v.xml", "raw")] : List (String × String)).countP (fun e => e.1 == "v.xml") ≤ 1 := by
  refine ⟨rfl, ?_⟩
  exact xml_file_single_artifact [some "res.partner"] [some "res.partner"] [some "tpl"]
    [{ path := "v.xml",
       read := XmlRead.ok "raw"
        { records := [{ model := "ir.ui.view", fields := [("model", some "res.partner")] },
                      { model := "ir.ui.view", fields := [("model", some "res.partner")] },
                      { model := "ir.actions.report", fields := [("model", some "res.partner")] },
                      { model := "ir.actions.report", fields := [("model", some "res.partner")] }]
          templates := [some "tpl", some "tpl"] } }]
    "v.xml" [("v.xml", "raw")] [("v.xml", "raw")] [("v.xml", "raw")]
    rfl rfl rfl (by decide)

/-! ## C5 — error recovery is not uniform across passes -/

theorem exists_ok_of_ite {α : Type} (c : Prop) [Decidable c] (x y : α) :
    ∃ o, (if c then (Except.ok x : Except PyError α) else Except.ok y) = Except.ok o := by
  split
  · exact ⟨x, rfl⟩
  · exact ⟨y, rfl⟩

/-- `viewsFile` only fails on an uncaught read error. -/
theorem viewsFile_total (vm : List String) (f : XmlFile) (h : f.read ≠ XmlRead.readError) :
    ∃ o, viewsFile vm f = Except.ok o := by
  cases hr : f.read with
  | missing => exact ⟨none, by simp [viewsFile, hr]⟩
  | parseError raw => exact ⟨none, by simp [viewsFile, hr]⟩
  | readError => exact absurd hr h
  | ok raw doc =>
    simp only [viewsFile, hr]
    exact exists_ok_of_ite _ _ _

/-- `reportsFile` only fails on an uncaught read error. -/
theorem reportsFile_total (rm : List String) (f : XmlFile) (h : f.read ≠ XmlRead.readError) :
    ∃ o, reportsFile rm f = Except.ok o := by
  cases hr : f.read with
  | missing => exact ⟨none, by simp [reportsFile, hr]⟩
  | parseError raw => exact ⟨none, by simp [reportsFile, hr]⟩
  | readError => exact absurd hr h
  | ok raw doc =>
    simp only [reportsFile, hr]
    exact exists_ok_of_ite _ _ _

/-- `templatesFile` only fails on an uncaught read error. -/
theorem templatesFile_total (ids : List String) (f : XmlFile) (h : f.read ≠ XmlRead.readError) :
    ∃ o, templatesFile ids f = Except.ok o := by
  cases hr : f.read with
  | missing => exact ⟨none, by simp [templatesFile, hr]⟩
  | parseError raw => exact ⟨none, by simp [templatesFile, hr]⟩
  | readError => exact absurd hr h
  | ok raw doc =>
    simp only [templatesFile, hr]
    exact exists_ok_of_ite _ _ _

/-- The XML collection fold succeeds whenever no listed file has an
uncaught read error: parse failures and missing files are skipped and the
remaining files still processed. -/
theorem collectXmlFiles_total (perFile : XmlFile → Except PyError (Option (String × String)))
    (hstep : ∀ f, f.read ≠ XmlRead.readError → ∃ o, perFile f = Except.ok o) :
    ∀ (files : List XmlFile) (acc : List (String × String)),
      (∀ f ∈ files, f.read ≠ XmlRead.readError) →
      ∃ out, files.foldlM (fun acc f => do let o ← perFile f; pure (acc ++ o.toList)) acc =
        Except.ok out := by
  intro files
  induction files with
  | nil =>
    intro acc _
    exact ⟨acc, rfl⟩
  | cons f fs ih =>
    intro acc hall
    obtain ⟨o, ho⟩ := hstep f (hall f (List.mem_cons_self _ _))
    obtain ⟨out, hout⟩ := ih (acc ++ o.toList) (fun f' hf' => hall f' (List.mem_cons_of_mem _ hf'))
    refine ⟨out, ?_⟩
    rw [List.foldlM_cons, ho]
    exact hout

/-- A failing read in the controllers fold aborts it with the error, no
matter how many files remain. -/
theorem controllersFold_error (routes : List String) (err : PyError) :
    ∀ (files1 : List ControllerFile) (f : ControllerFile) (files2 : List ControllerFile)
      (acc : List (String × String)),
      (∀ f' ∈ files1, ∃ src, f'.read = Except.ok src) →
      f.read = Except.error err →
      ((files1 ++ f :: files2).foldlM
        (fun acc g => do
          let src ← g.read
          pure (if src.routes.any (fun r => routes.contains r)
            then acc ++ [(g.path, src.raw)] else acc)) acc) = Except.error err := by
  intro files1
  induction files1 with
  | nil =>
    intro f files2 acc _ hf
    rw [List.nil_append, List.foldlM_cons, hf]
    rfl
  | cons g gs ih =>
    intro f files2 acc hall hf
    obtain ⟨src, hsrc⟩ := hall g (List.mem_cons_self _ _)
    rw [List.cons_append, List.foldlM_cons, hsrc]
    exact ih f files2 _ (fun f' h => hall f' (List.mem_cons_of_mem _ h)) hf

/-- A failing read of a kept entry in the security fold aborts it with the
error. -/
theorem securityFold_error (err : PyError) :
    ∀ (l1 : List FsEntry) (e : FsEntry) (l2 : List FsEntry) (acc : List (String × String)),
      (∀ e' ∈ l1,
        (e'.isFile && (nameEndsWith e'.name ".csv" || nameEndsWith e'.name ".xml")) = false ∨
        ∃ c, e'.read = Except.ok c) →
      (e.isFile && (nameEndsWith e.name ".csv" || nameEndsWith e.name ".xml")) = true →
      e.read = Except.error err →
      ((l1 ++ e :: l2).foldlM
        (fun acc x =>
          if x.isFile && (nameEndsWith x.name ".csv" || nameEndsWith x.name ".xml") then do
            let c ← x.read
            pure (acc ++ [(x.name, c)])
          else pure acc) acc) = Except.error err := by
  intro l1
  induction l1 with
  | nil =>
    intro e l2 acc _ hcond hread
    rw [List.nil_append, List.foldlM_cons, if_pos hcond, hread]
    rfl
  | cons x xs ih =>
    intro e l2 acc hall hcond hread
    rcases hall x (List.mem_cons_self _ _) with hx | ⟨c, hc⟩
    · rw [List.cons_append, List.foldlM_cons, if_neg (by simp [hx])]
      exact ih e l2 acc (fun e' h => hall e' (List.mem_cons_of_mem _ h)) hcond hread
    · by_cases hcx : (x.isFile && (nameEndsWith x.name ".csv" || nameEndsWith x.name ".xml")) = true
      · rw [List.cons_append, List.foldlM_cons, if_pos hcx, hc]
        exact ih e l2 _ (fun e' h => hall e' (List.mem_cons_of_mem _ h)) hcond hread
      · rw [List.cons_append, List.foldlM_cons, if_neg hcx]
        exact ih e l2 acc (fun e' h => hall e' (List.mem_cons_of_mem _ h)) hcond hread

/-- C5 counterexample: a read failure of one controller file is not
caught — the pass aborts (file c.py is never considered) and the same
error escapes `gather_context`, which installs no handler around any
pass. -/
theorem controllers_read_error_escapes :
    gatherControllers [some "/shop"] true
        [{ path := "a.py", read := Except.ok { raw := "A", routes := ["/shop"] } },
         { path := "b.py", read := Except.error PyError.osError },
         { path := "c.py", read := Except.ok { raw := "C", routes := ["/shop"] } }] =
      Except.error PyError.osError ∧
    gatherContext
        { models := [], views := [], controller := [some "/shop"], reports := [],
          websiteViews := [] }
        [("my_module", some
          { manifest := none,
            modelsEnv := ⟨false, false, [], []⟩,
            xmlFiles := [],
            controllersDirExists := true,
            controllerFiles :=
              [{ path := "a.py", read := Except.ok { raw := "A", routes := ["/shop"] } },
               { path := "b.py", read := Except.error PyError.osError }],
            securityDirExists := false,
            securityFiles := [],
            dataDirExists := false,
            dataFiles := [] })] =
      Except.error PyError.osError :=
  ⟨rfl, rfl⟩

/-- C5 amended: error recovery is per-pass, not universal.  The XML passes
(views, reports, website templates) skip files that are missing or fail to
parse and always succeed when no file has an uncaught read error; the
models pass is total (its whole body catches `Exception`); but the
controllers and security passes catch nothing — a single failing read
aborts the pass with the error, which then escapes `gather_context`. -/
theorem extraction_error_policy :
    (∀ (avs : List (Option String)) (files : List XmlFile),
        (∀ f ∈ files, f.read ≠ XmlRead.readError) →
        ∃ out, gatherViews avs files = Except.ok out) ∧
    (∀ (ars : List (Option String)) (files : List XmlFile),
        (∀ f ∈ files, f.read ≠ XmlRead.readError) →
        ∃ out, gatherReports ars files = Except.ok out) ∧
    (∀ (aws : List (Option String)) (files : List XmlFile),
        (∀ f ∈ files, f.read ≠ XmlRead.readError) →
        ∃ out, gatherWebsiteTemplates aws files = Except.ok out) ∧
    (∀ (acs : List (Option String)) (files1 files2 : List ControllerFile)
        (f : ControllerFile) (err : PyError),
        acs.isEmpty = false →
        (∀ f' ∈ files1, ∃ src, f'.read = Except.ok src) →
        f.read = Except.error err →
        gatherControllers acs true (files1 ++ f :: files2) = Except.error err) ∧
    (∀ (l1 l2 : List FsEntry) (e : FsEntry) (err : PyError),
        (∀ e' ∈ l1,
          (e'.isFile && (nameEndsWith e'.name ".csv" || nameEndsWith e'.name ".xml")) = false ∨
          ∃ c, e'.read = Except.ok c) →
        (e.isFile && (nameEndsWith e.name ".csv" || nameEndsWith e.name ".xml")) = true →
        e.read = Except.error err →
        gatherSecurity true (l1 ++ e :: l2) = Except.error err) := by
  refine ⟨?_, ?_, ?_, ?_, ?_⟩
  · intro avs files hall
    rw [gatherViews]
    split
    · exact ⟨[], rfl⟩
    · exact collectXmlFiles_total _ (viewsFile_total _) files [] hall
  · intro ars files hall
    rw [gatherReports]
    split
    · exact ⟨[], rfl⟩
    · exact collectXmlFiles_total _ (reportsFile_total _) files [] hall
  · intro aws files hall
    rw [gatherWebsiteTemplates]
    split
    · exact ⟨[], rfl⟩
    · exact collectXmlFiles_total _ (templatesFile_total _) files [] hall
  · intro acs files1 files2 f err hne hall hf
    rw [gatherControllers, if_neg (by simp [hne]), if_neg (by simp)]
    exact controllersFold_error (acs.filterMap id) err files1 f files2 [] hall hf
  · intro l1 l2 e err hall hcond hread
    rw [gatherSecurity, if_neg (by simp)]
    exact securityFold_error err l1 e l2 [] hall hcond hread

/-- Witness for `extraction_error_policy`: a parse failure and a missing
file are skipped by the XML passes, while one failing controller or
security read aborts those passes with the error. -/
theorem extraction_error_policy_witness :
    (∃ out, gatherViews [some "res.partner"]
        [{ path := "bad.xml", read := XmlRead.parseError "<odoo" },
         { path := "ok.xml", read := XmlRead.ok "<odoo/>" { records := [], templates := [] } }] =
      Except.ok out) ∧
    (∃ out, gatherReports [some "res.partner"]
        [{ path := "bad.xml", read := XmlRead.parseError "<odoo" }] = Except.ok out) ∧
    (∃ out, gatherWebsiteTemplates [some "tpl"]
        [{ path := "gone.xml", read := XmlRead.missing }] = Except.ok out) ∧
    gatherControllers [some "/shop"] true
        [{ path := "a.py", read := Except.ok { raw := "A", routes := [] } },
         { path := "b.py", read := Except.error PyError.osError }] =
      Except.error PyError.osError ∧
    gatherSecurity true
        [{ name := "a.csv", isFile := true, read := Except.ok "rows" },
         { name := "b.xml", isFile := true, read := Except.error PyError.osError }] =
      Except.error PyError.osError := by
  refine ⟨?_, ?_, ?_, ?_, ?_⟩
  · exact extraction_error_policy.1 _ _ (by decide)
  · exact extraction_error_policy.2.1 _ _ (by decide)
  · exact extraction_error_policy.2.2.1 _ _ (by decide)
  · exact extraction_error_policy.2.2.2.1 [some "/shop"]
      [{ path := "a.py", read := Except.ok { raw := "A", routes := [] } }] []
      { path := "b.py", read := Except.error PyError.osError } PyError.osError rfl
      (by
        intro f' hf'
        rcases List.mem_singleton.mp hf' with rfl
        exact ⟨{ raw := "A", routes := [] }, rfl⟩)
      rfl
  · exact extraction_error_policy.2.2.2.2
      [{ name := "a.csv", isFile := true, read := Except.ok "rows" }] []
      { name := "b.xml", isFile := true, read := Except.error PyError.osError } PyError.osError
      (by
        intro e' he'
        rcases List.mem_singleton.mp he' with rfl
        exact Or.inr ⟨"rows", rfl⟩)
      (by decide) rfl

/-! ## C4 — there is no override-module mechanism -/

/-- C4 counterexample: with an empty requested-model set `_gather_models`
returns before scanning anything, so nothing — let alone the whole model
file verbatim — is bundled for the module, whatever module is "under
development"; neither `gather_context` nor `_gather_models` takes an
override-module argument at all. -/
theorem models_empty_analysis_counterexample :
    gatherModels
      ⟨true, true, ["foo"],
        [("foo", [⟨0, false, true, [], "class Foo(models.Model):"⟩,
                  ⟨4, false, false, ["my.model"], "    _name = my.model"⟩])]⟩
      [] = [] := rfl

/-- C4 amended: when the analysis specification requests no models, the
models pass adds nothing for any module — the early return on an empty
requested set fires before any file is read; no override mechanism
exists in the code. -/
theorem models_empty_analysis_nothing (env : ModelsEnv) : gatherModels env [] = [] := by
  simp [gatherModels]

/-! ## C6 — only matching blocks of loaded files are bundled -/

/-- C6: for a module whose models initializer imports foo and bar, and an
analysis requesting one model that no block of bar.py mentions, the
models pass bundles exactly the blocks of foo.py whose declared or
inherited names include the requested model: every bundled entry is such
a foo.py block, and every such block is bundled; nothing of bar.py
appears. -/
theorem models_only_matching_blocks (fooLines barLines : List PyLine) (m : String)
    (hbar : ∀ b ∈ scanBlocks barLines, (blockNames b).contains m = false) :
    (∀ e ∈ gatherModels
        ⟨true, true, ["foo", "bar"], [("foo", fooLines), ("bar", barLines)]⟩ [m],
      ∃ b ∈ scanBlocks fooLines,
        e = ("foo" ++ ".py", blockText b) ∧ (blockNames b).contains m = true) ∧
    (∀ b ∈ scanBlocks fooLines, (blockNames b).contains m = true →
      ("foo" ++ ".py", blockText b) ∈
        gatherModels
          ⟨true, true, ["foo", "bar"], [("foo", fooLines), ("bar", barLines)]⟩ [m]) := by
  have hres : gatherModels
      ⟨true, true, ["foo", "bar"], [("foo", fooLines), ("bar", barLines)]⟩ [m] =
      (scanBlocks fooLines).filterMap
        (fun b => if [m].any (fun n => (blockNames b).contains n)
          then some ("foo" ++ ".py", blockText b) else none) ++
      ((scanBlocks barLines).filterMap
        (fun b => if [m].any (fun n => (blockNames b).contains n)
          then some ("bar" ++ ".py", blockText b) else none) ++ []) := rfl
  constructor
  · intro e he
    rw [hres] at he
    rcases List.mem_append.mp he with hfoo | hother
    · obtain ⟨b, hb, hsome⟩ := List.mem_filterMap.mp hfoo
      refine ⟨b, hb, ?_⟩
      simp only [List.any_cons, List.any_nil, Bool.or_false] at hsome
      by_cases hc : (blockNames b).contains m = true
      · rw [if_pos hc] at hsome
        exact ⟨(Option.some.inj hsome).symm, hc⟩
      · rw [if_neg hc] at hsome
        cases hsome
    · rw [List.append_nil] at hother
      obtain ⟨b, hb, hsome⟩ := List.mem_filterMap.mp hother
      exfalso
      simp only [List.any_cons, List.any_nil, Bool.or_false, hbar b hb] at hsome
      simp at hsome
  · intro b hb hcon
    rw [hres]
    apply List.mem_append_left
    apply List.mem_filterMap.mpr
    refine ⟨b, hb, ?_⟩
    simp only [List.any_cons, List.any_nil, Bool.or_false, hcon, if_true]

/-- Witness for `models_only_matching_blocks`: foo.py declares the
requested model in its first class and another model in its second;
bar.py declares an unrelated model.  Exactly foo.py's first block is
bundled. -/
theorem models_only_matching_blocks_witness :
    gatherModels
      ⟨true, true, ["foo", "bar"],
        [("foo", [⟨0, false, true, [], "class A(models.Model):"⟩,
                  ⟨4, false, false, ["foo.model"], "    _name = foo.model"⟩,
                  ⟨0, false, true, [], "class B(models.Model):"⟩,
                  ⟨4, false, false, ["other.model"], "    _name = other.model"⟩]),
         ("bar", [⟨0, false, true, [], "class C(models.Model):"⟩,
                  ⟨4, false, false, ["bar.model"], "    _name = bar.model"⟩])]⟩
      ["foo.model"] =
      [("foo" ++ ".py",
        blockText [⟨0, false, true, [], "class A(models.Model):"⟩,
                   ⟨4, false, false, ["foo.model"], "    _name = foo.model"⟩])] ∧
    ("foo" ++ ".py",
      blockText [⟨0, false, true, [], "class A(models.Model):"⟩,
                 ⟨4, false, false, ["foo.model"], "    _name = foo.model"⟩]) ∈
      gatherModels
        ⟨true, true, ["foo", "bar"],
          [("foo", [⟨0, false, true, [], "class A(models.Model):"⟩,
                    ⟨4, false, false, ["foo.model"], "    _name = foo.model"⟩,
                    ⟨0, false, true, [], "class B(models.Model):"⟩,
                    ⟨4, false, false, ["other.model"], "    _name = other.model"⟩]),
           ("bar", [⟨0, false, true, [], "class C(models.Model):"⟩,
                    ⟨4, false, false, ["bar.model"], "    _name = bar.model"⟩])]⟩
        ["foo.model"] := by
  refine ⟨by decide, ?_⟩
  exact (models_only_matching_blocks
      [⟨0, false, true, [], "class A(models.Model):"⟩,
       ⟨4, false, false, ["foo.model"], "    _name = foo.model"⟩,
       ⟨0, false, true, [], "class B(models.Model):"⟩,
       ⟨4, false, false, ["other.model"], "    _name = other.model"⟩]
      [⟨0, false, true, [], "class C(models.Model):"⟩,
       ⟨4, false, false, ["bar.model"], "    _name = bar.model"⟩]
      "foo.model" (by decide)).2
    [⟨0, false, true, [], "class A(models.Model):"⟩,
     ⟨4, false, false, ["foo.model"], "    _name = foo.model"⟩]
    (by decide) (by decide)

end OdevAI
